import Mathlib

/-!
Shallow embedding of the chunked voxel world core (coordinate transforms,
chunk store, terrain genesis pipeline, chunk cache, face-occlusion mask),
translated from the Rust sources `libs/vox/src/voxel.rs`,
`libs/vox/src/pipeline/genesis.rs` and `libs/vox_render/src/lib.rs`.

Machine floats (`f32`/`Vec3`) are embedded as exact rationals `ℚ`;
`i32`/`IVec3` as `ℤ`-vectors.  The `chunk`, `math` and `world` modules of
the repository are referenced by the given sources but their files are not
part of the source set; their definitions below are modelled from the spec
and are marked as such in their doc comments.
-/

/-- Embedding of `glam::IVec3`: an integer 3-vector. -/
structure IVec3 where
  x : ℤ
  y : ℤ
  z : ℤ
deriving DecidableEq, Repr

/-- Embedding of `glam::Vec3` (machine `f32` components modelled as exact `ℚ`). -/
structure QVec3 where
  x : ℚ
  y : ℚ
  z : ℚ
deriving DecidableEq, Repr

instance : Add IVec3 := ⟨fun a b => ⟨a.x + b.x, a.y + b.y, a.z + b.z⟩⟩

instance : Add QVec3 := ⟨fun a b => ⟨a.x + b.x, a.y + b.y, a.z + b.z⟩⟩

/-- The constant `IVec3::X`. -/
def IVec3.X : IVec3 := ⟨1, 0, 0⟩

/-- The constant `IVec3::Y`. -/
def IVec3.Y : IVec3 := ⟨0, 1, 0⟩

/-- The constant `IVec3::Z`. -/
def IVec3.Z : IVec3 := ⟨0, 0, 1⟩

instance : Neg IVec3 := ⟨fun a => ⟨-a.x, -a.y, -a.z⟩⟩

/-- Embedding of `IVec3::as_vec3`: componentwise cast of the integer vector to floats. -/
def IVec3.as_vec3 (v : IVec3) : QVec3 := ⟨(v.x : ℚ), (v.y : ℚ), (v.z : ℚ)⟩

theorem IVec3.add_def (a b : IVec3) : a + b = ⟨a.x + b.x, a.y + b.y, a.z + b.z⟩ := rfl

namespace chunk

/-- Modelled from the spec: `AXIS_SIZE` is the fixed cube edge length of a
chunk in voxels (the `chunk` module is not among the given sources).  The
repository's `to_local` tests fix the value at 16 (`to_local (-0.3) = 15`). -/
def AXIS_SIZE : ℕ := 16

/-- Modelled from the spec: `chunk::to_world(chunkCoordinate)` is
`chunkCoordinate * AXIS_SIZE` componentwise, in world (float) units. -/
def to_world (lc : IVec3) : QVec3 :=
  ⟨(lc.x : ℚ) * AXIS_SIZE, (lc.y : ℚ) * AXIS_SIZE, (lc.z : ℚ) * AXIS_SIZE⟩

/-- Modelled from the spec: `is_at_bounds(voxel)` is true iff any component
equals `0` or `AXIS_SIZE - 1`. -/
def is_at_bounds (v : IVec3) : Bool :=
  (v.x = 0 ∨ v.x = (AXIS_SIZE : ℤ) - 1) ∨
  (v.y = 0 ∨ v.y = (AXIS_SIZE : ℤ) - 1) ∨
  (v.z = 0 ∨ v.z = (AXIS_SIZE : ℤ) - 1)

/-- Outward direction on one axis: `-1` at the low boundary, `+1` at the
high boundary, `0` in the interior (helper for `get_boundary_dir`). -/
def boundary_axis (c : ℤ) : ℤ :=
  if c = 0 then -1 else if c = (AXIS_SIZE : ℤ) - 1 then 1 else 0

/-- Modelled from the spec: `get_boundary_dir(voxel)` yields, for each
component at a boundary, the unit direction pointing outward on that axis,
combined into one vector (split back into unit directions by
`math::to_unit_dir`). -/
def get_boundary_dir (v : IVec3) : IVec3 :=
  ⟨boundary_axis v.x, boundary_axis v.y, boundary_axis v.z⟩

end chunk

namespace math

/-- Modelled from the spec: `math::floor` floors each world-position
component to an integer (the `math` module is not among the given sources). -/
def floor (w : QVec3) : IVec3 := ⟨⌊w.x⌋, ⌊w.y⌋, ⌊w.z⌋⟩

/-- Modelled from the spec: `math::euclid_rem` applies the Euclidean
remainder modulo `m` to each component (result in `[0, m)` for `m > 0`
regardless of sign; `Int.emod` is exactly Rust's `rem_euclid` for positive
modulus). -/
def euclid_rem (v : IVec3) (m : ℤ) : IVec3 := ⟨v.x % m, v.y % m, v.z % m⟩

/-- Modelled from the spec: `math::to_unit_dir` splits a combined boundary
direction into the list of its per-axis unit directions (one entry per
nonzero component, sign preserved). -/
def to_unit_dir (d : IVec3) : List IVec3 :=
  (if d.x ≠ 0 then [(⟨d.x, 0, 0⟩ : IVec3)] else []) ++
  (if d.y ≠ 0 then [(⟨0, d.y, 0⟩ : IVec3)] else []) ++
  (if d.z ≠ 0 then [(⟨0, 0, d.z⟩ : IVec3)] else [])

end math

namespace voxel

/-- Embedding of `voxel::Kind(u16)`: small material identifier, `0` = empty. -/
abbrev Kind : Type := ℕ

/-- Embedding of `voxel::Side`: the six cardinal sides, discriminants 0–5. -/
inductive Side where
  | Right
  | Left
  | Up
  | Down
  | Front
  | Back
deriving DecidableEq, Repr

/-- The numeric discriminant of a side (`side as usize`). -/
def Side.index : Side → ℕ
  | .Right => 0
  | .Left => 1
  | .Up => 2
  | .Down => 3
  | .Front => 4
  | .Back => 5

/-- Embedding of `voxel::SIDES`: all six sides in discriminant order. -/
def SIDES : List Side := [.Right, .Left, .Up, .Down, .Front, .Back]

/-- Embedding of `Side::dir`: the outward integer unit direction of a side. -/
def Side.dir : Side → IVec3
  | .Right => IVec3.X
  | .Left => -IVec3.X
  | .Up => IVec3.Y
  | .Down => -IVec3.Y
  | .Front => IVec3.Z
  | .Back => -IVec3.Z

/-- Embedding of `voxel::to_local(world)`: floor the world position componentwise, then
take the Euclidean remainder modulo `AXIS_SIZE`. -/
def to_local (world : QVec3) : IVec3 :=
  math.euclid_rem (math.floor world) (chunk.AXIS_SIZE : ℤ)

/-- Embedding of `voxel::to_world(local, chunk_local)`: `chunk::to_world(chunk_local) + local`. -/
def to_world (lc : IVec3) (chunk_local : IVec3) : QVec3 :=
  chunk.to_world chunk_local + lc.as_vec3

end voxel

/-- A local voxel coordinate: every component in `[0, AXIS_SIZE)`. -/
def validLocal (v : IVec3) : Prop :=
  (0 ≤ v.x ∧ v.x < (chunk.AXIS_SIZE : ℤ)) ∧
  (0 ≤ v.y ∧ v.y < (chunk.AXIS_SIZE : ℤ)) ∧
  (0 ≤ v.z ∧ v.z < (chunk.AXIS_SIZE : ℤ))

instance (v : IVec3) : Decidable (validLocal v) := by
  unfold validLocal; infer_instance

/-- One component of the `to_local ∘ to_world` round trip. -/
theorem round_trip_axis (c v : ℤ) (h0 : 0 ≤ v) (h1 : v < (chunk.AXIS_SIZE : ℤ)) :
    ⌊(c : ℚ) * (chunk.AXIS_SIZE : ℕ) + (v : ℚ)⌋ % (chunk.AXIS_SIZE : ℤ) = v := by
  have hfloor : ((c : ℚ) * (chunk.AXIS_SIZE : ℕ) + (v : ℚ)) = ((c * (chunk.AXIS_SIZE : ℤ) + v : ℤ) : ℚ) := by
    push_cast
    ring
  rw [hfloor, Int.floor_intCast]
  have : c * (chunk.AXIS_SIZE : ℤ) + v = v + (chunk.AXIS_SIZE : ℤ) * c := by ring
  rw [this, Int.add_mul_emod_self_left]
  exact Int.emod_eq_of_lt h0 h1

/-- C5: for every local voxel coordinate `v` with each component in
`[0, AXIS_SIZE)` and every chunk coordinate `c`,
`to_local (to_world v c) = v`. -/
theorem to_local_to_world (v c : IVec3) (h : validLocal v) :
    voxel.to_local (voxel.to_world v c) = v := by
  obtain ⟨⟨hx0, hx1⟩, ⟨hy0, hy1⟩, ⟨hz0, hz1⟩⟩ := h
  simp only [voxel.to_local, voxel.to_world, chunk.to_world, IVec3.as_vec3,
    math.floor, math.euclid_rem]
  show (⟨_, _, _⟩ : IVec3) = v
  have ex := round_trip_axis c.x v.x hx0 hx1
  have ey := round_trip_axis c.y v.y hy0 hy1
  have ez := round_trip_axis c.z v.z hz0 hz1
  cases v
  simp only [QVec3.mk.injEq, IVec3.mk.injEq] at *
  exact ⟨ex, ey, ez⟩

/-- C5 witness: the round trip at the concrete voxel `(1, 15, 0)` in chunk
`(-3, 7, 2)`. -/
theorem to_local_to_world_witness :
    voxel.to_local (voxel.to_world ⟨1, 15, 0⟩ ⟨-3, 7, 2⟩) = ⟨1, 15, 0⟩ :=
  to_local_to_world ⟨1, 15, 0⟩ ⟨-3, 7, 2⟩ (by decide)

/-- C6: every component of `to_local` output lies in `[0, AXIS_SIZE)` for
arbitrary (including negative) world-position input. -/
theorem to_local_bounds (w : QVec3) :
    (0 ≤ (voxel.to_local w).x ∧ (voxel.to_local w).x < (chunk.AXIS_SIZE : ℤ)) ∧
    (0 ≤ (voxel.to_local w).y ∧ (voxel.to_local w).y < (chunk.AXIS_SIZE : ℤ)) ∧
    (0 ≤ (voxel.to_local w).z ∧ (voxel.to_local w).z < (chunk.AXIS_SIZE : ℤ)) := by
  have hpos : (0 : ℤ) < (chunk.AXIS_SIZE : ℤ) := by decide
  have hne : (chunk.AXIS_SIZE : ℤ) ≠ 0 := by decide
  simp only [voxel.to_local, math.euclid_rem, math.floor]
  exact ⟨⟨Int.emod_nonneg _ hne, Int.emod_lt_of_pos _ hpos⟩,
    ⟨Int.emod_nonneg _ hne, Int.emod_lt_of_pos _ hpos⟩,
    ⟨Int.emod_nonneg _ hne, Int.emod_lt_of_pos _ hpos⟩⟩

namespace chunk

/-- Modelled from the spec: `chunk::ChunkKind` is a dense `AXIS_SIZE³` array
of `voxel::Kind`, embedded as a total map from voxel coordinates to kinds
(out-of-range coordinates never arise for valid local coordinates). -/
def ChunkKind : Type := IVec3 → voxel.Kind

/-- Embedding of `ChunkKind::default()`: every voxel empty (kind `0`). -/
def ChunkKind.default : ChunkKind := fun _ => 0

/-- Modelled from the spec: `ChunkKind::set(voxel, kind)` writes one voxel. -/
def ChunkKind.set (ck : ChunkKind) (v : IVec3) (k : voxel.Kind) : ChunkKind :=
  fun w => if w = v then k else ck w

end chunk

/-- Modelled from the spec: `world::VoxWorld` is a sparse mapping from chunk
coordinate to chunk data, embedded as a partial map. -/
def VoxWorld : Type := IVec3 → Option chunk.ChunkKind

/-- Modelled from the spec: `VoxWorld::add(coord, chunk)` inserts, replacing
any existing chunk at `coord`. -/
def VoxWorld.add (w : VoxWorld) (c : IVec3) (ck : chunk.ChunkKind) : VoxWorld :=
  fun c' => if c' = c then some ck else w c'

/-- Modelled from the spec: `VoxWorld::remove(coord)` removes and returns
the chunk at `coord`, if any. -/
def VoxWorld.remove (w : VoxWorld) (c : IVec3) : Option chunk.ChunkKind × VoxWorld :=
  (w c, fun c' => if c' = c then none else w c')

namespace genesis

/-- Embedding of `genesis::update_voxel(world, local, voxels)`: if a chunk is resident at
`local`, write every edit into it via `set`; each edit at a chunk boundary
marks every `unit_dir + local` neighbor dirty; afterwards `local` itself is
marked dirty.  With no resident chunk, a warning is logged and the empty
set returned.  The in-place mutation through `get_mut` is embedded as
explicit state passing (the updated chunk is written back). -/
def update_voxel (world : VoxWorld) (lc : IVec3) (voxels : List (IVec3 × voxel.Kind)) :
    VoxWorld × Finset IVec3 :=
  match world lc with
  | some ck =>
      let r := voxels.foldl
        (fun (acc : chunk.ChunkKind × Finset IVec3) (vk : IVec3 × voxel.Kind) =>
          (acc.1.set vk.1 vk.2,
            if chunk.is_at_bounds vk.1 then
              (math.to_unit_dir (chunk.get_boundary_dir vk.1)).foldl
                (fun s u => insert (u + lc) s) acc.2
            else acc.2))
        (ck, (∅ : Finset IVec3))
      (VoxWorld.add world lc r.1, insert lc r.2)
  | none => (world, ∅)

/-- Embedding of `genesis::unload_chunk(world, local)`: remove the chunk; when nothing was
resident this is a logged no-op with an empty dirty set, otherwise the six
face-adjacent neighbors are returned. -/
def unload_chunk (world : VoxWorld) (lc : IVec3) : VoxWorld × Finset IVec3 :=
  match VoxWorld.remove world lc with
  | (none, w') => (w', ∅)
  | (some _, w') => (w', (voxel.SIDES.map (fun s => s.dir + lc)).toFinset)

end genesis

theorem IVec3.add_right_cancel (a b c : IVec3) (h : a + c = b + c) : a = b := by
  cases a; cases b; cases c
  simp only [IVec3.add_def, IVec3.mk.injEq] at h ⊢
  omega

/-- The map `Side::dir` is injective (each side points in a distinct direction). -/
theorem Side.dir_injective : Function.Injective voxel.Side.dir := by
  intro s t h
  cases s <;> cases t <;> first | rfl | (exfalso; revert h; decide)

/-- The six face-adjacent neighbors of `c` are pairwise distinct and do not
contain `c` itself. -/
theorem neighbors_card (c : IVec3) :
    ((voxel.SIDES.map (fun s => s.dir + c)).toFinset).card = 6 ∧
    c ∉ (voxel.SIDES.map (fun s => s.dir + c)).toFinset := by
  constructor
  · rw [List.toFinset_card_of_nodup]
    · simp [voxel.SIDES]
    · refine List.Nodup.map ?_ (by decide)
      intro s t h
      exact Side.dir_injective (IVec3.add_right_cancel _ _ _ h)
  · intro hmem
    simp only [List.mem_toFinset, List.mem_map] at hmem
    obtain ⟨s, _, hs⟩ := hmem
    have hz : s.dir = ⟨0, 0, 0⟩ := by
      have h0 : (⟨0, 0, 0⟩ : IVec3) + c = c := by
        cases c; simp [IVec3.add_def]
      exact IVec3.add_right_cancel _ _ _ (hs.trans h0.symm)
    cases s <;> exact absurd hz (by decide)

/-- C8: `unload_chunk` on an absent coordinate is a no-op returning the
empty dirty set; on a resident coordinate it removes the chunk and returns
exactly the 6 distinct face-adjacent neighbors, never `c` itself. -/
theorem unload_chunk_spec (w : VoxWorld) (c : IVec3) :
    genesis.unload_chunk w c =
      (match w c with
       | none => (w, (∅ : Finset IVec3))
       | some _ => ((fun c' => if c' = c then none else w c'),
           (voxel.SIDES.map (fun s => s.dir + c)).toFinset))
    ∧ c ∉ (voxel.SIDES.map (fun s => s.dir + c)).toFinset
    ∧ ((voxel.SIDES.map (fun s => s.dir + c)).toFinset).card = 6 := by
  refine ⟨?_, (neighbors_card c).2, (neighbors_card c).1⟩
  cases h : w c with
  | none =>
      simp only [genesis.unload_chunk, VoxWorld.remove, h]
      refine Prod.ext ?_ rfl
      funext c'
      by_cases hc : c' = c <;> simp [hc, h]
  | some ck =>
      simp only [genesis.unload_chunk, VoxWorld.remove, h]

/-- C10: `update_voxel` with an empty edit list returns `{c}` when a chunk
is resident at `c`, the empty set when not, and leaves the world unchanged. -/
theorem update_voxel_empty (w : VoxWorld) (c : IVec3) :
    (genesis.update_voxel w c []).2 =
      (match w c with
       | some _ => ({c} : Finset IVec3)
       | none => ∅)
    ∧ (genesis.update_voxel w c []).1 = w := by
  cases h : w c with
  | none => simp [genesis.update_voxel, h]
  | some ck =>
      constructor
      · simp [genesis.update_voxel, h]
      · simp only [genesis.update_voxel, h, List.foldl_nil]
        funext c'
        by_cases hc : c' = c <;> simp [VoxWorld.add, hc, h]

/-- The kind written last to voxel `v` by an ordered edit sequence, if any. -/
def lastWrite (edits : List (IVec3 × voxel.Kind)) (v : IVec3) : Option voxel.Kind :=
  edits.foldl (fun acc e => if e.1 = v then some e.2 else acc) none

/-- The paired fold of `update_voxel` (chunk writes alongside dirty-set
accumulation) splits into two independent folds. -/
theorem update_fold_split (lc : IVec3) (edits : List (IVec3 × voxel.Kind))
    (ck : chunk.ChunkKind) (s : Finset IVec3) :
    edits.foldl
      (fun (acc : chunk.ChunkKind × Finset IVec3) (vk : IVec3 × voxel.Kind) =>
        (acc.1.set vk.1 vk.2,
          if chunk.is_at_bounds vk.1 then
            (math.to_unit_dir (chunk.get_boundary_dir vk.1)).foldl
              (fun s u => insert (u + lc) s) acc.2
          else acc.2))
      (ck, s) =
    (edits.foldl (fun (k : chunk.ChunkKind) (e : IVec3 × voxel.Kind) => k.set e.1 e.2) ck,
     edits.foldl
      (fun s (vk : IVec3 × voxel.Kind) =>
        if chunk.is_at_bounds vk.1 then
          (math.to_unit_dir (chunk.get_boundary_dir vk.1)).foldl
            (fun s u => insert (u + lc) s) s
        else s) s) := by
  induction edits generalizing ck s with
  | nil => rfl
  | cons e l ih => simp only [List.foldl_cons, ih]

/-- Inserting a translated list of directions into a finset accumulates
their union. -/
theorem foldl_insert_translate (lc : IVec3) (L : List IVec3) (s : Finset IVec3) :
    L.foldl (fun s u => insert (u + lc) s) s =
      s ∪ (L.map (fun u => u + lc)).toFinset := by
  induction L generalizing s with
  | nil => simp
  | cons u L ih =>
      simp only [List.foldl_cons, ih, List.map_cons, List.toFinset_cons]
      ext a
      simp only [Finset.mem_union, Finset.mem_insert, List.mem_toFinset]
      tauto

/-- The dirty-set accumulation of `update_voxel` is the union over all edits
of their boundary-neighbor contributions. -/
theorem foldl_dirty_biUnion (lc : IVec3) (edits : List (IVec3 × voxel.Kind))
    (s : Finset IVec3) :
    edits.foldl
      (fun s (vk : IVec3 × voxel.Kind) =>
        if chunk.is_at_bounds vk.1 then
          (math.to_unit_dir (chunk.get_boundary_dir vk.1)).foldl
            (fun s u => insert (u + lc) s) s
        else s) s =
    s ∪ edits.toFinset.biUnion (fun e =>
      if chunk.is_at_bounds e.1 then
        ((math.to_unit_dir (chunk.get_boundary_dir e.1)).map (fun u => u + lc)).toFinset
      else ∅) := by
  induction edits generalizing s with
  | nil => simp
  | cons e l ih =>
      simp only [List.foldl_cons, List.toFinset_cons, Finset.biUnion_insert]
      by_cases hb : chunk.is_at_bounds e.1
      · rw [if_pos hb, foldl_insert_translate, ih, if_pos hb]
        ext a
        simp only [Finset.mem_union]
        tauto
      · rw [if_neg hb, ih, if_neg hb]
        ext a
        simp only [Finset.mem_union, Finset.not_mem_empty]
        tauto

/-- Refolding a last-write fold from an arbitrary start value. -/
theorem lastWrite_foldl_start (v : IVec3) (l : List (IVec3 × voxel.Kind))
    (i : Option voxel.Kind) :
    l.foldl (fun acc e => if e.1 = v then some e.2 else acc) i =
      (match lastWrite l v with
       | some k => some k
       | none => i) := by
  induction l generalizing i with
  | nil => rfl
  | cons e l ih =>
      simp only [lastWrite, List.foldl_cons] at *
      rw [ih, ih (if e.1 = v then some e.2 else none)]
      cases hl : l.foldl (fun acc e => if e.1 = v then some e.2 else acc) none with
      | some k => rfl
      | none => by_cases he : e.1 = v <;> simp [he]

/-- Applying an ordered edit sequence through `ChunkKind.set` is last-write-wins
pointwise. -/
theorem foldl_set_lastWrite (l : List (IVec3 × voxel.Kind)) (ck : chunk.ChunkKind)
    (v : IVec3) :
    l.foldl (fun (k : chunk.ChunkKind) (e : IVec3 × voxel.Kind) => k.set e.1 e.2) ck v =
      (lastWrite l v).getD (ck v) := by
  induction l generalizing ck with
  | nil => rfl
  | cons e l ih =>
      simp only [List.foldl_cons, ih]
      have : lastWrite (e :: l) v =
          (match lastWrite l v with
           | some k => some k
           | none => if e.1 = v then some e.2 else none) := by
        simp only [lastWrite, List.foldl_cons]
        exact lastWrite_foldl_start v l _
      rw [this]
      cases hl : lastWrite l v with
      | some k => rfl
      | none =>
          by_cases he : e.1 = v
          · subst he
            simp [chunk.ChunkKind.set]
          · have hne : v ≠ e.1 := fun hh => he hh.symm
            simp [chunk.ChunkKind.set, he, hne]

/-- C1: for a resident chunk at `c`, `update_voxel` returns the dirty set
`{c}` unioned with, for every edited voxel at a chunk boundary, the
translated outward boundary directions `d + c`; and the chunk at `c` in the
updated world holds, for each voxel, the kind of the last edit to it (other
voxels unchanged).  Editing only strictly interior voxels therefore dirties
exactly `{c}`. -/
theorem update_voxel_spec (w : VoxWorld) (c : IVec3)
    (edits : List (IVec3 × voxel.Kind)) (ck : chunk.ChunkKind)
    (h : w c = some ck) (_hv : ∀ e ∈ edits, validLocal e.1) :
    (genesis.update_voxel w c edits).2 =
      insert c (edits.toFinset.biUnion (fun e =>
        if chunk.is_at_bounds e.1 then
          ((math.to_unit_dir (chunk.get_boundary_dir e.1)).map (fun u => u + c)).toFinset
        else ∅))
    ∧ ∃ ck', (genesis.update_voxel w c edits).1 c = some ck'
        ∧ ∀ v, ck' v = (lastWrite edits v).getD (ck v) := by
  simp only [genesis.update_voxel, h]
  rw [update_fold_split]
  constructor
  · rw [foldl_dirty_biUnion]
    simp
  · refine ⟨edits.foldl (fun (k : chunk.ChunkKind) (e : IVec3 × voxel.Kind) =>
        k.set e.1 e.2) ck, ?_, ?_⟩
    · simp [VoxWorld.add]
    · intro v
      exact foldl_set_lastWrite edits ck v

/-- A concrete world with the default chunk resident at the origin. -/
def originWorld : VoxWorld :=
  fun c => if c = ⟨0, 0, 0⟩ then some chunk.ChunkKind.default else none

/-- C1 witness: a corner edit at `(0, 0, 0)` and an interior edit at
`(5, 5, 5)` in the chunk at the origin. -/
theorem update_voxel_spec_witness :
    (genesis.update_voxel originWorld ⟨0, 0, 0⟩
        [(⟨0, 0, 0⟩, 2), (⟨5, 5, 5⟩, 3)]).2 =
      insert (⟨0, 0, 0⟩ : IVec3)
        (([((⟨0, 0, 0⟩ : IVec3), (2 : voxel.Kind)),
           ((⟨5, 5, 5⟩ : IVec3), (3 : voxel.Kind))].toFinset).biUnion (fun e =>
          if chunk.is_at_bounds e.1 then
            ((math.to_unit_dir (chunk.get_boundary_dir e.1)).map
              (fun u => u + (⟨0, 0, 0⟩ : IVec3))).toFinset
          else ∅))
    ∧ ∃ ck', (genesis.update_voxel originWorld ⟨0, 0, 0⟩
          [(⟨0, 0, 0⟩, 2), (⟨5, 5, 5⟩, 3)]).1 ⟨0, 0, 0⟩ = some ck'
        ∧ ∀ v, ck' v =
            (lastWrite [(⟨0, 0, 0⟩, 2), (⟨5, 5, 5⟩, 3)] v).getD
              (chunk.ChunkKind.default v) :=
  update_voxel_spec originWorld ⟨0, 0, 0⟩ _ chunk.ChunkKind.default
    (by simp [originWorld]) (by decide)

/-- Embedding of `vox_render::FacesOcclusion(u8)`: a 6-bit occlusion mask, one bit per
cardinal side at the side's discriminant. -/
structure FacesOcclusion where
  val : ℕ
deriving DecidableEq, Repr

/-- The constant `FULL_OCCLUDED_MASK = 0b0011_1111`. -/
def FULL_OCCLUDED_MASK : ℕ := 63

namespace FacesOcclusion

/-- Embedding of `FacesOcclusion::set_all(occluded)`: all six bits set or cleared. -/
def set_all (_m : FacesOcclusion) (occluded : Bool) : FacesOcclusion :=
  if occluded then ⟨FULL_OCCLUDED_MASK⟩ else ⟨0⟩

/-- Embedding of `FacesOcclusion::is_fully_occluded()`. -/
def is_fully_occluded (m : FacesOcclusion) : Bool :=
  m.val &&& FULL_OCCLUDED_MASK = FULL_OCCLUDED_MASK

/-- Embedding of `FacesOcclusion::is_occluded(side)`. -/
def is_occluded (m : FacesOcclusion) (side : voxel.Side) : Bool :=
  m.val &&& (1 <<< side.index) = 1 <<< side.index

/-- Embedding of `FacesOcclusion::set(side, occluded)` (`!mask` is the 8-bit complement). -/
def set (m : FacesOcclusion) (side : voxel.Side) (occluded : Bool) : FacesOcclusion :=
  if occluded then ⟨m.val ||| (1 <<< side.index)⟩
  else ⟨m.val &&& (255 ^^^ (1 <<< side.index))⟩

end FacesOcclusion

/-- C9: after `set_all(true)` the mask is fully occluded, and after
`set_all(false)` no cardinal side is occluded. -/
theorem set_all_occlusion (m : FacesOcclusion) :
    (m.set_all true).is_fully_occluded = true ∧
    ∀ side : voxel.Side, (m.set_all false).is_occluded side = false := by
  constructor
  · simp [FacesOcclusion.set_all, FacesOcclusion.is_fully_occluded, FULL_OCCLUDED_MASK]
  · intro side
    cases side <;>
      simp [FacesOcclusion.set_all, FacesOcclusion.is_occluded, voxel.Side.index]

namespace genesis

namespace cache

/-- The constant `CACHE_PATH`. -/
def CACHE_PATH : String := "cache/chunks"

/-- The constant `CACHE_EXT`. -/
def CACHE_EXT : String := "bin"

/-- The display form of a `glam::IVec3` (modelled from the glam library):
the three components, comma-and-space separated, in square brackets. -/
def ivec3Display (v : IVec3) : String :=
  "[" ++ toString v.x ++ ", " ++ toString v.y ++ ", " ++ toString v.z ++ "]"

/-- Embedding of `cache::format_local(local)`: the `IVec3` display string with each comma
replaced by an underscore and spaces and brackets removed. -/
def format_local (lc : IVec3) : String :=
  String.mk ((ivec3Display lc).data.filterMap (fun c =>
    if c = ',' then some '_'
    else if c = ' ' ∨ c = '[' ∨ c = ']' then none
    else some c))

/-- Model of `PathBuf::with_file_name` (std library): drop the final
`/`-separated component of the path and attach the given file name. -/
def pathWithFileName (p name : String) : String :=
  String.mk ((p.data.reverse.dropWhile (fun c => c ≠ '/')).reverse) ++ name

/-- Model of `PathBuf::with_extension` (std library) for file names that
contain no `.` (as all `format_local` outputs do): append `.ext`. -/
def pathWithExtension (p ext : String) : String := p ++ "." ++ ext

/-- Embedding of `cache::local_path(local)`:
`PathBuf::from(CACHE_PATH).with_file_name(format_local(local)).with_extension(CACHE_EXT)`. -/
def local_path (lc : IVec3) : String :=
  pathWithExtension (pathWithFileName CACHE_PATH (format_local lc)) CACHE_EXT

/-- Embedding of `cache::ChunkCache`: the persisted record, a coordinate plus its kind
layer (field `local` renamed `lc`; `local` is reserved in Lean). -/
structure ChunkCache where
  lc : IVec3
  kind : chunk.ChunkKind

end cache

/-- The durable chunk-cache store: one optional record per file path.  File
I/O is embedded as explicit state passing over this map. -/
def FS : Type := String → Option cache.ChunkCache

namespace cache

/-- Embedding of `cache::save(path, local, kind)`: serialize the record to the path,
creating or truncating the file. -/
def save (fs : FS) (path : String) (lc : IVec3) (kind : chunk.ChunkKind) : FS :=
  fun p => if p = path then some ⟨lc, kind⟩ else fs p

/-- Embedding of `cache::load(path)`: deserialize a previously saved record, returning
its kind layer; a missing or unreadable file is fatal (an `error`). -/
def load (fs : FS) (path : String) : Except String chunk.ChunkKind :=
  match fs path with
  | some c => .ok c.kind
  | none => .error "Unable to open file"

/-- The machine constant `f32::EPSILON` (`2⁻²³`), as an exact rational. -/
def EPSILON : ℚ := 1 / 2 ^ 23

/-- The per-column local height computed by `cache::generate` (its `h`,
`world_height` and `height_local` lets, collapsed into one formula): the
noise sampled at the column's world x/z, mapped to `[0, 2·AXIS_SIZE]`,
minus the chunk's world-space y origin. -/
def localHeight (noise : ℚ → ℚ → ℚ) (lc : IVec3) (x z : ℕ) : ℚ :=
  ((noise ((chunk.to_world lc).x + (x : ℚ)) ((chunk.to_world lc).z + (z : ℚ)) + 1) / 2)
    * ((2 * chunk.AXIS_SIZE : ℕ) : ℚ) - (chunk.to_world lc).y

/-- The voxel-layer generation loop of `cache::generate` (lines 129–147):
for each column, skip when the local height is below `f32::EPSILON`,
otherwise fill kinds `1` for `y` below `min(height_local as usize,
AXIS_SIZE)`.  The fractal noise field is an external crate
(`bracket_noise`, fixed seed 15) and is abstracted as the `noise`
parameter; `height_local as usize` is `⌊·⌋.toNat` (truncation, saturating
at zero). -/
def genKind (noise : ℚ → ℚ → ℚ) (lc : IVec3) : chunk.ChunkKind :=
  (List.range chunk.AXIS_SIZE).foldl (fun kind x =>
    (List.range chunk.AXIS_SIZE).foldl (fun kind z =>
      if localHeight noise lc x z < EPSILON then kind
      else
        (List.range (min (⌊localHeight noise lc x z⌋.toNat) chunk.AXIS_SIZE)).foldl
          (fun kind (y : ℕ) => chunk.ChunkKind.set kind ⟨(x : ℤ), (y : ℤ), (z : ℤ)⟩ 1)
          kind)
      kind)
    chunk.ChunkKind.default

/-- Embedding of `cache::generate(local)`: compute the voxel layer, then assert that no
cache file exists for the coordinate (fatal otherwise) and persist the
layer via `save`. -/
def generate (noise : ℚ → ℚ → ℚ) (fs : FS) (lc : IVec3) :
    Except String (chunk.ChunkKind × FS) :=
  let kind := genKind noise lc
  let path := local_path lc
  if (fs path).isSome then .error "Cache already exists!"
  else .ok (kind, save fs path lc kind)

end cache

end genesis

/-- C3: the cache path of the origin chunk.  `local_path` produces the file
name `0_0_0.bin` directly under `cache/`: `with_file_name` replaces the
final component `chunks` of `CACHE_PATH`, so no path ever lies under the
`cache/chunks` directory. -/
theorem local_path_origin :
    genesis.cache.local_path ⟨0, 0, 0⟩ = "cache/0_0_0.bin" := by
  rfl

/-- C7: generating a chunk whose cache file is absent succeeds and persists
the layer; calling `generate` again for the same coordinate without
clearing the cache file then fails fatally (`assert!(!path.exists())`). -/
theorem generate_twice_fatal (noise : ℚ → ℚ → ℚ) (fs : genesis.FS) (c : IVec3)
    (h : fs (genesis.cache.local_path c) = none) :
    genesis.cache.generate noise fs c =
      .ok (genesis.cache.genKind noise c,
        genesis.cache.save fs (genesis.cache.local_path c) c
          (genesis.cache.genKind noise c))
    ∧ genesis.cache.generate noise
        (genesis.cache.save fs (genesis.cache.local_path c) c
          (genesis.cache.genKind noise c)) c =
      .error "Cache already exists!" := by
  constructor
  · simp [genesis.cache.generate, h]
  · simp [genesis.cache.generate, genesis.cache.save]

/-- The empty cache store: no file exists. -/
def emptyFS : genesis.FS := fun _ => none

/-- C7 witness: generating the origin chunk twice on an initially empty
cache store, with the zero noise field. -/
theorem generate_twice_fatal_witness :
    genesis.cache.generate (fun _ _ => 0) emptyFS ⟨0, 0, 0⟩ =
      .ok (genesis.cache.genKind (fun _ _ => 0) ⟨0, 0, 0⟩,
        genesis.cache.save emptyFS (genesis.cache.local_path ⟨0, 0, 0⟩) ⟨0, 0, 0⟩
          (genesis.cache.genKind (fun _ _ => 0) ⟨0, 0, 0⟩))
    ∧ genesis.cache.generate (fun _ _ => 0)
        (genesis.cache.save emptyFS (genesis.cache.local_path ⟨0, 0, 0⟩) ⟨0, 0, 0⟩
          (genesis.cache.genKind (fun _ _ => 0) ⟨0, 0, 0⟩)) ⟨0, 0, 0⟩ =
      .error "Cache already exists!" :=
  generate_twice_fatal (fun _ _ => 0) emptyFS ⟨0, 0, 0⟩ rfl

namespace genesis

/-- Embedding of `genesis::load_chunk(world, local)`: load the chunk from the cache file
when one exists at `local_path(local)`, otherwise generate it (which also
persists it); insert the resulting chunk into the world via `add`; return
the dirty set collected from the six `s.dir() + local` neighbors chained
with `local` itself.  File I/O is threaded as explicit cache-store state;
the fatal panics inside `load`/`generate` surface as `error`. -/
def load_chunk (noise : ℚ → ℚ → ℚ) (world : VoxWorld) (fs : FS) (lc : IVec3) :
    Except String (VoxWorld × FS × Finset IVec3) :=
  let path := cache.local_path lc
  match (if (fs path).isSome then (cache.load fs path).map (fun k => (k, fs))
         else cache.generate noise fs lc) with
  | .error e => .error e
  | .ok (ck, fs') =>
      .ok (VoxWorld.add world lc ck, fs',
        ((voxel.SIDES.map (fun s => s.dir + lc)).concat lc).toFinset)

end genesis

/-- Chaining the coordinate itself onto its neighbor list and collecting
into a set is `insert`. -/
theorem concat_toFinset (l : List IVec3) (a : IVec3) :
    (l.concat a).toFinset = insert a l.toFinset := by
  simp only [List.concat_eq_append, List.toFinset_append, List.toFinset_cons,
    List.toFinset_nil, insert_emptyc_eq]
  rw [Finset.union_comm, ← Finset.insert_eq]

/-- C2: `load_chunk` never fails; it returns the world with the resulting
chunk inserted at `c`, and a dirty set of exactly 7 coordinates — `c` and
its 6 face-adjacent neighbors.  The chunk comes from the cache file when
one exists for `c` (cache store unchanged), and from generation otherwise
(the generated layer is persisted to `local_path c`). -/
theorem load_chunk_spec (noise : ℚ → ℚ → ℚ) (w : VoxWorld) (fs : genesis.FS)
    (c : IVec3) :
    genesis.load_chunk noise w fs c =
      .ok (VoxWorld.add w c
            (match fs (genesis.cache.local_path c) with
             | some r => r.kind
             | none => genesis.cache.genKind noise c),
          (match fs (genesis.cache.local_path c) with
           | some _ => fs
           | none => genesis.cache.save fs (genesis.cache.local_path c) c
               (genesis.cache.genKind noise c)),
          insert c ((voxel.SIDES.map (fun s => s.dir + c)).toFinset))
    ∧ (insert c ((voxel.SIDES.map (fun s => s.dir + c)).toFinset)).card = 7 := by
  constructor
  · cases h : fs (genesis.cache.local_path c) with
    | some r =>
        simp only [genesis.load_chunk, genesis.cache.load, h, Option.isSome_some,
          if_true, Except.map]
        rw [concat_toFinset]
    | none =>
        simp only [genesis.load_chunk, genesis.cache.generate, h, Option.isSome_none,
          Bool.false_eq_true, if_false, Option.isSome_some]
        rw [concat_toFinset]
  · rw [Finset.card_insert_of_not_mem (neighbors_card c).2, (neighbors_card c).1]

/-- Evaluating the innermost fill loop of `genKind`: voxel `(x, y, z)` holds
`1` iff it lies in the filled column prefix, else the accumulator's value. -/
theorem fill_foldl_apply (x' z' n : ℕ) (k : chunk.ChunkKind) (x y z : ℕ) :
    ((List.range n).foldl
      (fun kind (y' : ℕ) =>
        chunk.ChunkKind.set kind ⟨(x' : ℤ), (y' : ℤ), (z' : ℤ)⟩ 1) k)
      ⟨(x : ℤ), (y : ℤ), (z : ℤ)⟩ =
    if x = x' ∧ y < n ∧ z = z' then (1 : voxel.Kind)
    else k ⟨(x : ℤ), (y : ℤ), (z : ℤ)⟩ := by
  induction n with
  | zero => simp
  | succ n ih =>
      rw [List.range_succ, List.foldl_append, List.foldl_cons, List.foldl_nil]
      simp only [chunk.ChunkKind.set]
      rw [ih]
      simp only [IVec3.mk.injEq, Int.natCast_inj]
      split_ifs <;> first | rfl | omega

/-- Evaluating the per-column loop of `genKind` over the first `m` values of
`z`: voxel `(x, y, z)` holds `1` iff its column was visited, was not skipped
by the epsilon test, and `y` lies below the fill height. -/
theorem column_foldl_apply (noise : ℚ → ℚ → ℚ) (lc : IVec3) (x' m : ℕ)
    (k : chunk.ChunkKind) (x y z : ℕ) :
    ((List.range m).foldl
      (fun kind (z' : ℕ) =>
        if genesis.cache.localHeight noise lc x' z' < genesis.cache.EPSILON then kind
        else
          (List.range (min (⌊genesis.cache.localHeight noise lc x' z'⌋.toNat)
              chunk.AXIS_SIZE)).foldl
            (fun kind (y' : ℕ) =>
              chunk.ChunkKind.set kind ⟨(x' : ℤ), (y' : ℤ), (z' : ℤ)⟩ 1)
            kind)
      k) ⟨(x : ℤ), (y : ℤ), (z : ℤ)⟩ =
    if x = x' ∧ z < m ∧
        ¬ genesis.cache.localHeight noise lc x' z < genesis.cache.EPSILON ∧
        y < min (⌊genesis.cache.localHeight noise lc x' z⌋.toNat) chunk.AXIS_SIZE
    then (1 : voxel.Kind)
    else k ⟨(x : ℤ), (y : ℤ), (z : ℤ)⟩ := by
  induction m with
  | zero => simp
  | succ m ih =>
      rw [List.range_succ, List.foldl_append, List.foldl_cons, List.foldl_nil]
      by_cases hz : z = m
      · subst hz
        by_cases he : genesis.cache.localHeight noise lc x' z < genesis.cache.EPSILON
        · rw [if_pos he, ih]
          simp only [lt_self_iff_false, false_and, and_false, if_false]
          rw [if_neg (fun h => h.2.2.1 he)]
        · rw [if_neg he, fill_foldl_apply, ih]
          simp only [lt_self_iff_false, false_and, and_false, if_false]
          exact if_congr
            ⟨fun h => ⟨h.1, Nat.lt_succ_self z, he, h.2.1⟩,
             fun h => ⟨h.1, h.2.2.2, trivial⟩⟩ rfl rfl
      · by_cases he : genesis.cache.localHeight noise lc x' m < genesis.cache.EPSILON
        · rw [if_pos he, ih]
          exact if_congr
            ⟨fun h => ⟨h.1, Nat.lt_succ_of_lt h.2.1, h.2.2⟩,
             fun h => ⟨h.1, Nat.lt_of_le_of_ne (Nat.lt_succ_iff.mp h.2.1) hz, h.2.2⟩⟩
            rfl rfl
        · rw [if_neg he, fill_foldl_apply, if_neg (fun h => hz h.2.2), ih]
          exact if_congr
            ⟨fun h => ⟨h.1, Nat.lt_succ_of_lt h.2.1, h.2.2⟩,
             fun h => ⟨h.1, Nat.lt_of_le_of_ne (Nat.lt_succ_iff.mp h.2.1) hz, h.2.2⟩⟩
            rfl rfl

/-- Evaluating the outer loop of `genKind` over the first `M` values of `x`. -/
theorem plane_foldl_apply (noise : ℚ → ℚ → ℚ) (lc : IVec3) (M : ℕ)
    (k : chunk.ChunkKind) (x y z : ℕ) :
    ((List.range M).foldl
      (fun kind (x' : ℕ) =>
        (List.range chunk.AXIS_SIZE).foldl
          (fun kind (z' : ℕ) =>
            if genesis.cache.localHeight noise lc x' z' < genesis.cache.EPSILON then kind
            else
              (List.range (min (⌊genesis.cache.localHeight noise lc x' z'⌋.toNat)
                  chunk.AXIS_SIZE)).foldl
                (fun kind (y' : ℕ) =>
                  chunk.ChunkKind.set kind ⟨(x' : ℤ), (y' : ℤ), (z' : ℤ)⟩ 1)
                kind)
          kind)
      k) ⟨(x : ℤ), (y : ℤ), (z : ℤ)⟩ =
    if x < M ∧ z < chunk.AXIS_SIZE ∧
        ¬ genesis.cache.localHeight noise lc x z < genesis.cache.EPSILON ∧
        y < min (⌊genesis.cache.localHeight noise lc x z⌋.toNat) chunk.AXIS_SIZE
    then (1 : voxel.Kind)
    else k ⟨(x : ℤ), (y : ℤ), (z : ℤ)⟩ := by
  induction M with
  | zero => simp
  | succ M ih =>
      rw [List.range_succ, List.foldl_append, List.foldl_cons, List.foldl_nil]
      rw [column_foldl_apply, ih]
      by_cases hx : x = M
      · subst hx
        simp only [lt_self_iff_false, false_and, if_false]
        exact if_congr
          ⟨fun h => ⟨Nat.lt_succ_self x, h.2⟩, fun h => ⟨trivial, h.2⟩⟩ rfl rfl
      · rw [if_neg (fun h => hx h.1)]
        exact if_congr
          ⟨fun h => ⟨Nat.lt_succ_of_lt h.1, h.2⟩,
           fun h => ⟨Nat.lt_of_le_of_ne (Nat.lt_succ_iff.mp h.1) hx, h.2⟩⟩
          rfl rfl

/-- Pointwise value of the generated layer at an in-range voxel: `1` iff the
column passed the epsilon test and `y` is below
`min(height_local as usize, AXIS_SIZE)`, else `0`. -/
theorem genKind_apply (noise : ℚ → ℚ → ℚ) (lc : IVec3) (x y z : ℕ)
    (hx : x < chunk.AXIS_SIZE) (hz : z < chunk.AXIS_SIZE) :
    genesis.cache.genKind noise lc ⟨(x : ℤ), (y : ℤ), (z : ℤ)⟩ =
    if ¬ genesis.cache.localHeight noise lc x z < genesis.cache.EPSILON ∧
        y < min (⌊genesis.cache.localHeight noise lc x z⌋.toNat) chunk.AXIS_SIZE
    then (1 : voxel.Kind)
    else 0 := by
  show ((List.range chunk.AXIS_SIZE).foldl _ chunk.ChunkKind.default)
      ⟨(x : ℤ), (y : ℤ), (z : ℤ)⟩ = _
  rw [plane_foldl_apply]
  simp only [hx, hz, true_and, chunk.ChunkKind.default]

/-- C4 (amended): per column `(x, z)` of a generated layer, with
`localHeight = worldHeight - chunkWorldOriginY`: when `localHeight ≤ 0` the
column is entirely empty, and in general a voxel holds kind `1` exactly
when `y < min(⌊localHeight⌋, AXIS_SIZE)` (the height is truncated to an
integer before the comparison) and kind `0` otherwise. -/
theorem genKind_column_spec (noise : ℚ → ℚ → ℚ) (lc : IVec3) (x y z : ℕ)
    (hx : x < chunk.AXIS_SIZE) (_hy : y < chunk.AXIS_SIZE) (hz : z < chunk.AXIS_SIZE) :
    (genesis.cache.localHeight noise lc x z ≤ 0 →
      genesis.cache.genKind noise lc ⟨(x : ℤ), (y : ℤ), (z : ℤ)⟩ = 0)
    ∧ genesis.cache.genKind noise lc ⟨(x : ℤ), (y : ℤ), (z : ℤ)⟩ =
        (if (y : ℤ) < min ⌊genesis.cache.localHeight noise lc x z⌋
              ((chunk.AXIS_SIZE : ℕ) : ℤ)
         then 1 else 0) := by
  have key := genKind_apply noise lc x y z hx hz
  set L := genesis.cache.localHeight noise lc x z with hL
  constructor
  · intro hle
    rw [key, if_neg]
    intro hcon
    exact hcon.1 (lt_of_le_of_lt hle (by norm_num [genesis.cache.EPSILON]))
  · rw [key]
    by_cases he : L < genesis.cache.EPSILON
    · rw [if_neg (fun h => h.1 he), if_neg]
      have h1 : L < 1 := lt_of_lt_of_le he (by norm_num [genesis.cache.EPSILON])
      have hfl : ⌊L⌋ < 1 := Int.floor_lt.mpr (by exact_mod_cast h1)
      have h2 : min ⌊L⌋ ((chunk.AXIS_SIZE : ℕ) : ℤ) ≤ ⌊L⌋ := min_le_left _ _
      have h3 : (0 : ℤ) ≤ (y : ℤ) := Int.natCast_nonneg y
      omega
    · have hL0 : (0 : ℚ) ≤ L :=
        le_trans (by norm_num [genesis.cache.EPSILON]) (not_lt.mp he)
      have hf0 : 0 ≤ ⌊L⌋ := Int.floor_nonneg.mpr hL0
      have hcast : ((min (⌊L⌋.toNat) chunk.AXIS_SIZE : ℕ) : ℤ) =
          min ⌊L⌋ ((chunk.AXIS_SIZE : ℕ) : ℤ) := by
        push_cast [Int.toNat_of_nonneg hf0]
        rfl
      have hiff : ((y : ℤ) < min ⌊L⌋ ((chunk.AXIS_SIZE : ℕ) : ℤ)) ↔
          y < min (⌊L⌋.toNat) chunk.AXIS_SIZE := by
        rw [← hcast]
        exact Nat.cast_lt
      by_cases hy' : y < min (⌊L⌋.toNat) chunk.AXIS_SIZE
      · rw [if_pos ⟨he, hy'⟩, if_pos (hiff.mpr hy')]
      · rw [if_neg (fun h => hy' h.2), if_neg (fun h => hy' (hiff.mp h))]

/-- C4 witness: the amended column property at the origin voxel of the
origin chunk under the zero noise field (localHeight = 16, so the voxel is
solid). -/
theorem genKind_column_spec_witness :
    (genesis.cache.localHeight (fun _ _ => 0) ⟨0, 0, 0⟩ 0 0 ≤ 0 →
      genesis.cache.genKind (fun _ _ => 0) ⟨0, 0, 0⟩ ⟨0, 0, 0⟩ = 0)
    ∧ genesis.cache.genKind (fun _ _ => 0) ⟨0, 0, 0⟩ ⟨0, 0, 0⟩ =
        (if ((0 : ℕ) : ℤ) < min ⌊genesis.cache.localHeight (fun _ _ => 0) ⟨0, 0, 0⟩ 0 0⌋
              ((chunk.AXIS_SIZE : ℕ) : ℤ)
         then 1 else 0) :=
  genKind_column_spec (fun _ _ => 0) ⟨0, 0, 0⟩ 0 0 0
    (by decide) (by decide) (by decide)

/-- C4 counterexample to the claim as stated: under the constant noise field
`-27/32` the origin column of the origin chunk has `localHeight = 5/2`, so
`y = 2` lies in the claimed fill interval `[0, min(localHeight, AXIS_SIZE))`,
yet the generated voxel `(0, 2, 0)` is empty (kind `0`, not `1`): the code
fills only below the truncated height `⌊5/2⌋ = 2`. -/
theorem genKind_claim_counterexample :
    genesis.cache.genKind (fun _ _ => -27/32) ⟨0, 0, 0⟩ ⟨0, 2, 0⟩ = 0
    ∧ (0 : ℚ) ≤ 2
    ∧ (2 : ℚ) < min (genesis.cache.localHeight (fun _ _ => -27/32) ⟨0, 0, 0⟩ 0 0)
        ((chunk.AXIS_SIZE : ℕ) : ℚ) := by
  have hlh : genesis.cache.localHeight (fun _ _ => -27/32) ⟨0, 0, 0⟩ 0 0 = 5/2 := by
    norm_num [genesis.cache.localHeight, chunk.to_world, chunk.AXIS_SIZE]
  have hfl : ⌊(5/2 : ℚ)⌋ = 2 := by norm_num
  refine ⟨?_, by norm_num, ?_⟩
  · have key := genKind_apply (fun _ _ => -27/32) ⟨0, 0, 0⟩ 0 2 0 (by decide) (by decide)
    rw [hlh] at key
    show genesis.cache.genKind (fun _ _ => -27/32) ⟨0, 0, 0⟩
      ⟨((0 : ℕ) : ℤ), ((2 : ℕ) : ℤ), ((0 : ℕ) : ℤ)⟩ = 0
    rw [key, if_neg]
    rintro ⟨-, hcon⟩
    rw [hfl] at hcon
    simp [chunk.AXIS_SIZE] at hcon
  · rw [hlh, min_eq_left (by norm_num [chunk.AXIS_SIZE] :
      (5/2 : ℚ) ≤ ((chunk.AXIS_SIZE : ℕ) : ℚ))]
    norm_num
